import Mathlib

set_option maxHeartbeats 1600000

/-!
Shallow embedding of `src/emergency_preemption.py` — the SUMO emergency-vehicle
traffic-light preemption controller.

Modelling conventions:

* The TraCI collaborator state that the controller reads and commands in one
  tick is a `World` record: the live vehicle map (`traci.vehicle.getIDList`
  plus the per-vehicle queries), the live traffic-light map (position,
  controlled links, signal-state string, program, phase, phase duration,
  next-switch time) and the simulation clock.
* Python dictionaries (`currently_preempted_tls`, `preemption_memory`, and the
  collaborator's id-indexed tables) are association lists with Python `dict`
  semantics: `dictSet` replaces in place or appends, `dictDel` removes the
  key's entry, lookup finds the first (unique) entry.
* Positions are integer `(x, y)` pairs and the comparison
  `sumolib.geomhelper.distanceXY(...) <= DETECTION_RADIUS` (with
  `DETECTION_RADIUS = 50.0`) is embedded as the equivalent comparison of the
  squared Euclidean distance against `2500`, avoiding irrational square roots;
  both sides are monotone images of each other, so every `<=` / `>` outcome is
  preserved exactly.
* Durations and simulation times are integers; the source manipulates them
  only by subtraction and storage, never by rounding-sensitive arithmetic.
* A raised `traci.TraCIException` is modelled explicitly: a vehicle lookup on
  an id that is no longer live fails, and the per-vehicle loop of
  `process_emergency_vehicles` catches the failure and continues with the next
  vehicle, keeping whatever mutations already happened — exactly the
  `try/except TraCIException: continue` of the source.
* The cosmetic color-flashing block of `process_emergency_vehicles`
  (lines 170–191) only issues `setColor` commands inside a bare
  `try/except: pass` (it even reads the name `step`, which is not in scope
  there, so it always raises and is swallowed); it touches no state the
  claims mention and is not modelled.
-/

namespace EP

/-- One entry of a `traci.trafficlight.getControlledLinks` group: a TraCI link
triple `(incoming lane, outgoing lane, via lane)`.  The source's test
`len(link) > 2 and link[2]` is, for this triple shape, the test that the third
component is a non-empty string. -/
structure Link where
  fromLane : String
  toLane : String
  via : String
deriving DecidableEq

/-- Test `len(link) > 2 and link[2]` from line 116 of the source: the link's third
component is present and truthy. -/
def linkCompatible (l : Link) : Bool := l.via != ""

/-- The per-vehicle facts the controller queries from TraCI. -/
structure Vehicle where
  pos : Int × Int
  edge : String
  route : List String
  routeIndex : Nat
  typeId : String
deriving DecidableEq

/-- The per-traffic-light facts the controller queries from TraCI, plus the
fields its commands write back. -/
structure TLS where
  pos : Int × Int
  controlledLinks : List (List Link)
  state : String
  program : String
  phase : Int
  phaseDuration : Int
  nextSwitch : Int
deriving DecidableEq

/-- The collaborator state visible in one tick. -/
structure World where
  time : Int
  vehicles : List (String × Vehicle)
  tls : List (String × TLS)
deriving DecidableEq

/-- One entry of the global `preemption_memory` dict (lines 92–98). -/
structure Snapshot where
  program : String
  phase : Int
  phase_duration : Int
  remaining_duration : Int
deriving DecidableEq

/-- One entry of the global `currently_preempted_tls` dict: the tuple
`(vehicle_id, vehicle_priority, approach_lane)` stored on line 123. -/
structure OverrideRecord where
  vehicle_id : String
  priority : Int
  approach : Nat
deriving DecidableEq

/-- The two module-level dictionaries that form the preemption state store. -/
structure Store where
  currently_preempted_tls : List (String × OverrideRecord)
  preemption_memory : List (String × Snapshot)
deriving DecidableEq

/-- The store at program start: both dictionaries empty. -/
def initStore : Store := ⟨[], []⟩

/-- Python `d[k]` / `d.get(k)`: first (unique) binding of the key. -/
def dictGet {α : Type} : List (String × α) → String → Option α
  | [], _ => none
  | p :: rest, key => if p.1 = key then some p.2 else dictGet rest key

/-- Python `d[k] = v`: replace the existing binding in place, else append. -/
def dictSet {α : Type} : List (String × α) → String → α → List (String × α)
  | [], key, v => [(key, v)]
  | p :: rest, key, v => if p.1 = key then (key, v) :: rest else p :: dictSet rest key v

/-- Python `del d[k]`: drop the key's binding. -/
def dictDel {α : Type} : List (String × α) → String → List (String × α)
  | [], _ => []
  | p :: rest, key => if p.1 = key then dictDel rest key else p :: dictDel rest key

/-- Update the value bound to `key`, leaving all other bindings alone (models a
TraCI command addressed to one junction id). -/
def dictUpdate {α : Type} (d : List (String × α)) (key : String) (f : α → α) :
    List (String × α) :=
  d.map (fun p => if p.1 = key then (p.1, f p.2) else p)

/-- Constant `DETECTION_RADIUS = 50.0` (line 20), squared: `50² = 2500`. -/
def DETECTION_RADIUS_SQ : Int := 2500

/-- Squared planar distance, the monotone image of
`sumolib.geomhelper.distanceXY`. -/
def dist2 (p q : Int × Int) : Int :=
  (p.1 - q.1) * (p.1 - q.1) + (p.2 - q.2) * (p.2 - q.2)

/-- The priority table `EMERGENCY_VEHICLE_TYPES` (lines 21–31). -/
def EMERGENCY_VEHICLE_TYPES : List (String × Int) :=
  [("veh_ambulance", 1), ("veh_ambulance_urgent", 1),
   ("veh_firefighter", 2), ("veh_firefighter_heavy", 2),
   ("veh_police", 3), ("veh_police_swat", 3),
   ("veh_disaster_response", 2), ("veh_medical_transport", 4),
   ("veh_hazmat", 2)]

/-- Python `lane.split('_')[0]` (line 57): the part of the lane id before the first
underscore (the whole string when no underscore occurs, as in Python). -/
def laneEdge (lane : String) : String :=
  String.mk (lane.data.takeWhile (fun c => c != '_'))

/-- Python `vehicle_edge.startswith(':')` (line 69): internal (intra-junction) edge. -/
def isInternalEdge (e : String) : Bool := e.data.headD ' ' == ':'

/-- The per-link match test of line 57: the link's source edge equals the
vehicle's current edge, or (`next_edge and ...` — Python truthiness, so the
next edge must be non-empty) equals the vehicle's next route edge. -/
def linkMatches (current_edge next_edge : String) (l : Link) : Bool :=
  (laneEdge l.fromLane == current_edge) ||
    (next_edge != "" && laneEdge l.fromLane == next_edge)

/-- The scan of lines 55–58: `for i, links in enumerate(controlled_links):
for link in links: if <match>: return i`. -/
def scanGroups (current_edge next_edge : String) :
    List (List Link) → Nat → Option Nat
  | [], _ => none
  | links :: rest, i =>
    if links.any (linkMatches current_edge next_edge) then some i
    else scanGroups current_edge next_edge rest (i + 1)

/-- Source `get_approaching_lane` (lines 40–60).  Note the early return of line 45:
a vehicle whose route has no next edge yields `None` before any link is
examined.  After that guard, `route_index < len(route) - 1` always holds, so
`next_edge` is always `route[route_index + 1]` (the `getD` default is dead). -/
def get_approaching_lane (veh : Vehicle) (t : TLS) : Option Nat :=
  if veh.routeIndex + 1 ≥ veh.route.length then none
  else
    scanGroups veh.edge (veh.route.getD (veh.routeIndex + 1) "")
      t.controlledLinks 0

/-- Stable insertion into an ascending list: equal keys keep the existing
elements first, matching Python's stable `list.sort`. -/
def insertByKey {α : Type} (key : α → Int) (x : α) : List α → List α
  | [] => [x]
  | y :: ys => if key y < key x then y :: insertByKey key x ys else x :: y :: ys

/-- Stable ascending sort by an integer key (Python `list.sort(key=...)`). -/
def sortByKey {α : Type} (key : α → Int) : List α → List α
  | [] => []
  | x :: xs => insertByKey key x (sortByKey key xs)

/-- Source `find_nearest_tls` (lines 62–83).  Fails (`none`) when the vehicle id is no
longer live — the TraCI queries of lines 65–66 would raise.  Otherwise returns
the `(tls_id, squared distance, approach index)` candidates within the
detection radius, in ascending distance order (stable on ties, like
`nearby_tls.sort(key=lambda x: x[1])`). -/
def find_nearest_tls (w : World) (vehicle_id : String) :
    Option (List (String × Int × Nat)) :=
  match dictGet w.vehicles vehicle_id with
  | none => none
  | some veh =>
    if isInternalEdge veh.edge then some []
    else
      some (sortByKey (fun c => c.2.1) (w.tls.filterMap (fun q =>
        let d := dist2 veh.pos q.2.pos
        if d ≤ DETECTION_RADIUS_SQ then
          match get_approaching_lane veh q.2 with
          | some lane => some (q.1, d, lane)
          | none => none
        else none)))

/-- The trigger of line 116 for one link group: some link of the group passes
`i == approach_lane or (len(link) > 2 and link[2])`. -/
def groupTrigger (approach_lane i : Nat) (links : List Link) : Bool :=
  links.any (fun l => (i == approach_lane) || linkCompatible l)

/-- The inner loop of lines 115–117 for one group index `i`. -/
def setGreensGroup (approach_lane i : Nat) (links : List Link)
    (st : List Char) : List Char :=
  links.foldl
    (fun st2 l =>
      if (i == approach_lane) || linkCompatible l then st2.set i 'g' else st2)
    st

/-- The outer loop of lines 114–117: `for i, links in
enumerate(controlled_links)`, threading the mutable `new_state` list. -/
def setGreensFrom (approach_lane : Nat) :
    List (List Link) → Nat → List Char → List Char
  | [], _, st => st
  | links :: rest, i, st =>
    setGreensFrom approach_lane rest (i + 1) (setGreensGroup approach_lane i links st)

/-- Lines 100–117: start from `['r'] * num_links` (with
`num_links = len(current_state)`) and run the green-setting loops. -/
def overrideState (controlled : List (List Link)) (approach_lane : Nat)
    (num_links : Nat) : List Char :=
  setGreensFrom approach_lane controlled 0 (List.replicate num_links 'r')

/-- Command `traci.trafficlight.setRedYellowGreenState(tls_id, ...)` (line 120). -/
def worldSetState (w : World) (tls_id : String) (st : String) : World :=
  ⟨w.time, w.vehicles, dictUpdate w.tls tls_id (fun t => { t with state := st })⟩

/-- The snapshot captured on lines 93–98. -/
def capture (t : TLS) (time : Int) : Snapshot :=
  ⟨t.program, t.phase, t.phaseDuration, t.nextSwitch - time⟩

/-- The rejection test of line 87: `tls_id in currently_preempted_tls and
currently_preempted_tls[tls_id][1] <= vehicle_priority`. -/
def preemptRejected (s : Store) (tls_id : String) (vehicle_priority : Int) : Bool :=
  match dictGet s.currently_preempted_tls tls_id with
  | some rec => decide (rec.priority ≤ vehicle_priority)
  | none => false

/-- The applying tail of `preempt_traffic_light` (lines 91–123), given the
junction's TraCI record `t`: capture the snapshot only when
`tls_id not in preemption_memory`, build and apply the override signal
pattern, and insert/replace the override record.  (The `logic` fetched on
line 108 is never used and is not modelled.) -/
def preemptApply (w : World) (s : Store) (tls_id : String) (approach_lane : Nat)
    (vehicle_id : String) (vehicle_priority : Int) (t : TLS) : World × Store :=
  let mem1 :=
    if (dictGet s.preemption_memory tls_id).isSome then s.preemption_memory
    else dictSet s.preemption_memory tls_id (capture t w.time)
  let new_state := overrideState t.controlledLinks approach_lane t.state.length
  (worldSetState w tls_id (String.mk new_state),
   ⟨dictSet s.currently_preempted_tls tls_id
      ⟨vehicle_id, vehicle_priority, approach_lane⟩,
    mem1⟩)

/-- Source `preempt_traffic_light` (lines 85–126).  The error branch models the
TraCI exception raised when `tls_id` is not a live traffic light; the
rejection branch (line 87) runs before any TraCI call, so it can never fail
and never mutates anything. -/
def preempt_traffic_light (w : World) (s : Store) (tls_id : String)
    (approach_lane : Nat) (vehicle_id : String) (vehicle_priority : Int) :
    Except String (Bool × World × Store) :=
  if preemptRejected s tls_id vehicle_priority then .ok (false, w, s)
  else
    match dictGet w.tls tls_id with
    | none => .error "TraCIException: unknown traffic light"
    | some t => .ok (true, preemptApply w s tls_id approach_lane vehicle_id vehicle_priority t)

/-- The restore commands of lines 132–134 applied to one junction. -/
def restoreTLSFields (m : Snapshot) (t : TLS) : TLS :=
  { t with program := m.program, phase := m.phase,
           phaseDuration := m.remaining_duration }

/-- Source `restore_traffic_light` (lines 128–139): when a snapshot exists, reapply
its program, phase and *remaining* duration and delete it; in all cases delete
the override record if present (`dictDel` of an absent key is the identity,
like the guarded `del` of line 137–138). -/
def restore_traffic_light (w : World) (s : Store) (tls_id : String) :
    World × Store :=
  let wm : World × List (String × Snapshot) :=
    match dictGet s.preemption_memory tls_id with
    | some m =>
      (⟨w.time, w.vehicles, dictUpdate w.tls tls_id (restoreTLSFields m)⟩,
       dictDel s.preemption_memory tls_id)
    | none => (w, s.preemption_memory)
  (wm.1, ⟨dictDel s.currently_preempted_tls tls_id, wm.2⟩)

/-- Source `is_emergency_vehicle_in_junction` (lines 141–157).  A junction with no
record, or whose recorded vehicle has left the simulation, yields `false`;
otherwise the vehicle must still be within the detection radius.  (The
junction-position query of line 153 cannot fail for a preempted junction; the
`none` fallback is the harmless value for that dead branch.) -/
def is_emergency_vehicle_in_junction (w : World) (s : Store) (tls_id : String) :
    Bool :=
  match dictGet s.currently_preempted_tls tls_id with
  | none => false
  | some rec =>
    match dictGet w.vehicles rec.vehicle_id with
    | none => false
    | some veh =>
      match dictGet w.tls tls_id with
      | none => false
      | some t => decide (dist2 veh.pos t.pos ≤ DETECTION_RADIUS_SQ)

/-- The per-junction body of `check_preempted_junctions` (lines 211–216): test
the release condition and restore when it fires. -/
def releaseCheckJunction (w : World) (s : Store) (tls_id : String) :
    World × Store :=
  if is_emergency_vehicle_in_junction w s tls_id then (w, s)
  else restore_traffic_light w s tls_id

/-- Source `check_preempted_junctions` (lines 207–216): first collect every preempted
junction whose trigger no longer holds (the list comprehension runs against
the pre-pass store), then restore them in order. -/
def check_preempted_junctions (w : World) (s : Store) : World × Store :=
  let tls_to_restore :=
    (s.currently_preempted_tls.map Prod.fst).filter
      (fun id => !(is_emergency_vehicle_in_junction w s id))
  tls_to_restore.foldl (fun ws id => restore_traffic_light ws.1 ws.2 id) (w, s)

/-- The candidate loop of lines 201–202, threading state; a failing
`preempt_traffic_light` call raises out of the loop, keeping the mutations
already made (the exception is caught one level up). -/
def preemptCandidates (vehicle_id : String) (vehicle_priority : Int) :
    List (String × Int × Nat) → World → Store → World × Store
  | [], w, s => (w, s)
  | c :: rest, w, s =>
    match preempt_traffic_light w s c.1 c.2.2 vehicle_id vehicle_priority with
    | .error _ => (w, s)
    | .ok r => preemptCandidates vehicle_id vehicle_priority rest r.2.1 r.2.2

/-- The `try` body of lines 198–202 for one emergency vehicle, with the
`except TraCIException: continue` of lines 203–205 folded in: a failure leaves
the state as it was at the failure point and moves on. -/
def processOne (w : World) (s : Store) (vehicle_id : String)
    (vehicle_priority : Int) : World × Store :=
  match find_nearest_tls w vehicle_id with
  | none => (w, s)
  | some cands => preemptCandidates vehicle_id vehicle_priority cands w s

/-- The vehicle loop of lines 197–205 over an already-built, already-sorted
`(vehicle id, priority)` list. -/
def processEmergencyList : List (String × Int) → World → Store → World × Store
  | [], w, s => (w, s)
  | v :: rest, w, s =>
    let ws := processOne w s v.1 v.2
    processEmergencyList rest ws.1 ws.2

/-- Source `process_emergency_vehicles` (lines 159–205): collect the live vehicles
whose type is in `EMERGENCY_VEHICLE_TYPES` (in id-list order), sort them
ascending by priority (stable), and run the per-vehicle loop. -/
def process_emergency_vehicles (w : World) (s : Store) : World × Store :=
  let emergency_vehicles := w.vehicles.filterMap (fun p =>
    match dictGet EMERGENCY_VEHICLE_TYPES p.2.typeId with
    | some pri => some (p.1, pri)
    | none => none)
  processEmergencyList (sortByKey (fun e => e.2) emergency_vehicles) w s

/-- One override attempt, for reasoning about arbitrary call chains. -/
structure Call where
  tls_id : String
  approach : Nat
  vehicle_id : String
  priority : Int

/-- Run a sequence of `preempt_traffic_light` calls, threading state; a failed
call leaves the state untouched and the chain continues (as the control loop
does across vehicles and ticks). -/
def chainPreempt : List Call → World → Store → World × Store
  | [], w, s => (w, s)
  | c :: rest, w, s =>
    match preempt_traffic_light w s c.tls_id c.approach c.vehicle_id c.priority with
    | .error _ => chainPreempt rest w s
    | .ok r => chainPreempt rest r.2.1 r.2.2

/-- The operations that touch the preemption store: one `tryOverride`
(`preempt_traffic_light`) call, one release pass
(`check_preempted_junctions`), or an environment step in which the simulation
advances and only the collaborator world changes. -/
inductive SysStep : World × Store → World × Store → Prop
  | preempt (w : World) (s : Store) (tls_id : String) (approach_lane : Nat)
      (vehicle_id : String) (vehicle_priority : Int) (b : Bool) (w1 : World)
      (s1 : Store) :
      preempt_traffic_light w s tls_id approach_lane vehicle_id vehicle_priority
        = .ok (b, w1, s1) →
      SysStep (w, s) (w1, s1)
  | release (w : World) (s : Store) :
      SysStep (w, s) (check_preempted_junctions w s)
  | env (w w1 : World) (s : Store) : SysStep (w, s) (w1, s)

/-- The store-ownership invariant of the spec's data model: unique override
record per junction, unique snapshot per junction, and snapshot present
exactly when a record is present. -/
def StoreInv (s : Store) : Prop :=
  (s.currently_preempted_tls.map Prod.fst).Nodup ∧
  (s.preemption_memory.map Prod.fst).Nodup ∧
  ∀ j : String,
    (dictGet s.currently_preempted_tls j).isSome ↔
      (dictGet s.preemption_memory j).isSome

/-- The restore loop of lines 215–216 over an already-collected junction
list. -/
def restoreAll (L : List String) (w : World) (s : Store) : World × Store :=
  L.foldl (fun ws id => restore_traffic_light ws.1 ws.2 id) (w, s)

/-- Whether the override-pattern loop (lines 114–117), run over the given
link groups with the enumeration starting at `i0`, writes green at string
position `j`. -/
def triggersAt (approach_lane : Nat) : List (List Link) → Nat → Nat → Bool
  | [], _, _ => false
  | links :: rest, i0, j =>
    (i0 == j && groupTrigger approach_lane i0 links) ||
      triggersAt approach_lane rest (i0 + 1) j

/-! ### Concrete fixtures used by the witness theorems -/

/-- A junction with three controlled links: the third carries a via lane, so
the source's `len(link) > 2 and link[2]` test is truthy for it. -/
def tFix : TLS :=
  ⟨(0, 0),
   [[⟨"e1_0", "e9_0", ""⟩], [⟨"e2_0", "e9_1", ""⟩], [⟨"e3_0", "e9_2", "j1_0"⟩]],
   "rrr", "prog0", 2, 30, 45⟩

/-- One live ambulance approaching `tFix` on its first route edge. -/
def wFix : World :=
  ⟨5, [("amb", ⟨(3, 4), "e1", ["e1", "e9"], 0, "veh_ambulance"⟩)], [("J", tFix)]⟩

/-- Junction `"J"` already overridden by a priority-2 vehicle, snapshot captured. -/
def sOverr : Store :=
  ⟨[("J", ⟨"v1", 2, 1⟩)], [("J", ⟨"prog0", 2, 30, 12⟩)]⟩

/-- An overridden junction whose recorded requester has left the simulation. -/
def wC2 : World := ⟨5, [], [("J", tFix)]⟩

/-- Store for the release witness: record plus snapshot for `"J"`. -/
def sC2 : Store := ⟨[("J", ⟨"gone", 1, 0⟩)], [("J", ⟨"pX", 7, 30, 11⟩)]⟩

/-- A vehicle on the final leg of its route (`route_index + 1 >= len(route)`)
whose current edge matches a controlled link of `tC4`. -/
def vC4 : Vehicle := ⟨(0, 0), "e1", ["e1"], 0, "veh_ambulance"⟩

/-- Junction whose first controlled link comes from edge `e1`. -/
def tC4 : TLS := ⟨(10, 0), [[⟨"e1_0", "e9_0", ""⟩]], "r", "p", 0, 30, 45⟩

/-- An ambulance between two junctions, matching `tJ1` by its current edge
and `tJ2` by its next route edge, both within the detection radius. -/
def vC10 : Vehicle := ⟨(0, 0), "e1", ["e1", "e2"], 0, "veh_ambulance"⟩

def tJ1 : TLS := ⟨(10, 0), [[⟨"e1_0", "e9_0", ""⟩]], "r", "p1", 0, 30, 45⟩

def tJ2 : TLS := ⟨(0, 10), [[⟨"e2_0", "e8_0", ""⟩]], "r", "p2", 0, 30, 45⟩

def wC10 : World := ⟨7, [("amb", vC10)], [("J1", tJ1), ("J2", tJ2)]⟩

/-- State after the first override of the snapshot-chaining scenario. -/
def c1w1 : World := (preemptApply wFix initStore "J" 0 "amb" 3 tFix).1

def c1s1 : Store := (preemptApply wFix initStore "J" 0 "amb" 3 tFix).2

/-- A strictly more urgent displacement of the same junction. -/
def c1chain : List Call := [⟨"J", 1, "amb2", 1⟩]

def c1w2 : World := (chainPreempt c1chain c1w1 c1s1).1

def c1s2 : Store := (chainPreempt c1chain c1w1 c1s1).2

def c1w3 : World := (restore_traffic_light c1w2 c1s2 "J").1

def c1s3 : Store := (restore_traffic_light c1w2 c1s2 "J").2

/-- State after the release pass of the release-correctness scenario. -/
def c2w2 : World := (check_preempted_junctions wC2 sC2).1

def c2s2 : Store := (check_preempted_junctions wC2 sC2).2

/-- State after the override of the signal-pattern scenario. -/
def c5w1 : World := (preemptApply wFix initStore "J" 0 "amb" 1 tFix).1

def c5s1 : Store := (preemptApply wFix initStore "J" 0 "amb" 1 tFix).2

/-- One-step reachable state for the store-invariant witness. -/
def c6next : World × Store :=
  ((preemptApply wFix initStore "J" 0 "amb" 1 tFix).1,
   (preemptApply wFix initStore "J" 0 "amb" 1 tFix).2)

/-! ### Association-list (Python dict) lemmas -/

theorem dictGet_set_self {α : Type} (d : List (String × α)) (k : String) (v : α) :
    dictGet (dictSet d k v) k = some v := by
  induction d with
  | nil => simp [dictSet, dictGet]
  | cons p rest ih =>
    by_cases h : p.1 = k
    · simp [dictSet, h, dictGet]
    · simp [dictSet, h, dictGet, ih]

theorem dictGet_set_ne {α : Type} (d : List (String × α)) (k k2 : String) (v : α)
    (h : k2 ≠ k) : dictGet (dictSet d k v) k2 = dictGet d k2 := by
  have hk : k ≠ k2 := Ne.symm h
  induction d with
  | nil => simp [dictSet, dictGet, hk]
  | cons p rest ih =>
    by_cases hp : p.1 = k
    · have hp2 : p.1 ≠ k2 := hp ▸ hk
      simp [dictSet, hp, dictGet, hk, hp2]
    · simp only [dictSet, if_neg hp, dictGet]
      by_cases hp2 : p.1 = k2 <;> simp [hp2, ih]

theorem dictGet_del_self {α : Type} (d : List (String × α)) (k : String) :
    dictGet (dictDel d k) k = none := by
  induction d with
  | nil => simp [dictDel, dictGet]
  | cons p rest ih =>
    by_cases h : p.1 = k
    · simpa [dictDel, h] using ih
    · simp [dictDel, h, dictGet, ih]

theorem dictGet_del_ne {α : Type} (d : List (String × α)) (k k2 : String)
    (h : k2 ≠ k) : dictGet (dictDel d k) k2 = dictGet d k2 := by
  have hk : k ≠ k2 := Ne.symm h
  induction d with
  | nil => simp [dictDel, dictGet]
  | cons p rest ih =>
    by_cases hp : p.1 = k
    · have hp2 : p.1 ≠ k2 := hp ▸ hk
      simp [dictDel, hp, dictGet, hp2, ih, hk]
    · by_cases hp2 : p.1 = k2 <;> simp [dictDel, hp, hp2, dictGet, ih, h, hk]

theorem dictGet_update_self {α : Type} (d : List (String × α)) (k : String)
    (f : α → α) : dictGet (dictUpdate d k f) k = (dictGet d k).map f := by
  induction d with
  | nil => simp [dictUpdate, dictGet]
  | cons p rest ih =>
    by_cases h : p.1 = k
    · simp [dictUpdate, h, dictGet]
    · simp only [dictUpdate, List.map_cons, if_neg h, dictGet] at ih ⊢
      simp [h, ih]

theorem dictGet_update_ne {α : Type} (d : List (String × α)) (k k2 : String)
    (f : α → α) (h : k2 ≠ k) :
    dictGet (dictUpdate d k f) k2 = dictGet d k2 := by
  have hk : k ≠ k2 := Ne.symm h
  induction d with
  | nil => simp [dictUpdate, dictGet]
  | cons p rest ih =>
    by_cases hp : p.1 = k
    · have hp2 : p.1 ≠ k2 := hp ▸ hk
      simp only [dictUpdate, List.map_cons, if_pos hp, dictGet] at ih ⊢
      simp [hp2, hp ▸ hk, ih]
    · simp only [dictUpdate, List.map_cons, if_neg hp, dictGet] at ih ⊢
      by_cases hp2 : p.1 = k2 <;> simp [hp2, ih]

theorem dictGet_none_iff {α : Type} (d : List (String × α)) (k : String) :
    dictGet d k = none ↔ ∀ p ∈ d, p.1 ≠ k := by
  induction d with
  | nil => simp [dictGet]
  | cons p rest ih =>
    by_cases h : p.1 = k <;> simp [dictGet, h, ih]

theorem dictDel_of_get_none {α : Type} (d : List (String × α)) (k : String)
    (h : dictGet d k = none) : dictDel d k = d := by
  induction d with
  | nil => simp [dictDel]
  | cons p rest ih =>
    rw [dictGet_none_iff] at h
    have hp : p.1 ≠ k := h p (by simp)
    have hrest : dictGet rest k = none := by
      rw [dictGet_none_iff]
      exact fun q hq => h q (by simp [hq])
    simp [dictDel, hp, ih hrest]

theorem mem_keys_dictSet {α : Type} (d : List (String × α)) (k x : String)
    (v : α) :
    x ∈ (dictSet d k v).map Prod.fst ↔ x ∈ d.map Prod.fst ∨ x = k := by
  induction d with
  | nil => simp [dictSet]
  | cons p rest ih =>
    by_cases h : p.1 = k
    · simp only [dictSet, if_pos h, List.map_cons, List.mem_cons]
      rw [h]
      tauto
    · simp only [dictSet, if_neg h, List.map_cons, List.mem_cons, ih]
      tauto

theorem nodup_keys_dictSet {α : Type} (d : List (String × α)) (k : String)
    (v : α) (h : (d.map Prod.fst).Nodup) :
    ((dictSet d k v).map Prod.fst).Nodup := by
  induction d with
  | nil => simp [dictSet]
  | cons p rest ih =>
    simp only [List.map_cons, List.nodup_cons] at h
    by_cases hp : p.1 = k
    · simp only [dictSet, if_pos hp, List.map_cons, List.nodup_cons]
      exact ⟨hp ▸ h.1, h.2⟩
    · simp only [dictSet, if_neg hp, List.map_cons, List.nodup_cons]
      refine ⟨fun hmem => ?_, ih h.2⟩
      rcases (mem_keys_dictSet rest k p.1 v).mp hmem with h1 | h1
      · exact h.1 h1
      · exact hp h1

theorem mem_keys_dictDel {α : Type} (d : List (String × α)) (k x : String)
    (h : x ∈ (dictDel d k).map Prod.fst) : x ∈ d.map Prod.fst := by
  induction d with
  | nil => simp [dictDel] at h
  | cons p rest ih =>
    by_cases hp : p.1 = k
    · simp only [dictDel, if_pos hp] at h
      simp [ih h]
    · simp only [dictDel, if_neg hp, List.map_cons, List.mem_cons] at h
      rcases h with h1 | h1
      · simp [h1]
      · simp [ih h1]

theorem nodup_keys_dictDel {α : Type} (d : List (String × α)) (k : String)
    (h : (d.map Prod.fst).Nodup) : ((dictDel d k).map Prod.fst).Nodup := by
  induction d with
  | nil => simp [dictDel]
  | cons p rest ih =>
    simp only [List.map_cons, List.nodup_cons] at h
    by_cases hp : p.1 = k
    · simp only [dictDel, if_pos hp]
      exact ih h.2
    · simp only [dictDel, if_neg hp, List.map_cons, List.nodup_cons]
      exact ⟨fun hmem => h.1 (mem_keys_dictDel rest k p.1 hmem), ih h.2⟩

theorem isSome_of_mem_keys {α : Type} (d : List (String × α)) (k : String)
    (h : k ∈ d.map Prod.fst) : (dictGet d k).isSome := by
  induction d with
  | nil => simp at h
  | cons p rest ih =>
    simp only [List.map_cons, List.mem_cons] at h
    by_cases hp : p.1 = k
    · simp [dictGet, hp]
    · rcases h with h1 | h1
      · exact absurd h1.symm hp
      · simp only [dictGet, if_neg hp]
        exact ih h1

theorem mem_keys_of_isSome {α : Type} (d : List (String × α)) (k : String)
    (h : (dictGet d k).isSome) : k ∈ d.map Prod.fst := by
  induction d with
  | nil => simp [dictGet] at h
  | cons p rest ih =>
    by_cases hp : p.1 = k
    · simp [hp ▸ List.mem_cons_self p.1 (rest.map Prod.fst), hp]
    · simp only [dictGet, if_neg hp] at h
      simp [ih h]

theorem isSome_dictGet_update {α : Type} (d : List (String × α)) (k j : String)
    (f : α → α) :
    (dictGet (dictUpdate d k f) j).isSome = (dictGet d j).isSome := by
  by_cases hj : j = k
  · subst hj
    rw [dictGet_update_self]
    cases dictGet d j <;> simp
  · rw [dictGet_update_ne d k j f hj]

/-! ### Shape lemmas for `preempt_traffic_light` -/

theorem preempt_ok_cases (w : World) (s : Store) (tid : String) (a : Nat)
    (v : String) (p : Int) (b : Bool) (w1 : World) (s1 : Store)
    (h : preempt_traffic_light w s tid a v p = .ok (b, w1, s1)) :
    (b = false ∧ w1 = w ∧ s1 = s ∧ preemptRejected s tid p = true) ∨
    (b = true ∧ preemptRejected s tid p = false ∧
      ∃ t, dictGet w.tls tid = some t ∧ (w1, s1) = preemptApply w s tid a v p t) := by
  unfold preempt_traffic_light at h
  by_cases hr : preemptRejected s tid p
  · left
    rw [if_pos hr] at h
    simp only [Except.ok.injEq, Prod.mk.injEq] at h
    exact ⟨h.1.symm, h.2.1.symm, h.2.2.symm, hr⟩
  · right
    rw [if_neg hr] at h
    cases hget : dictGet w.tls tid with
    | none =>
      rw [hget] at h
      simp at h
    | some t =>
      rw [hget] at h
      simp only [Except.ok.injEq, Prod.mk.injEq] at h
      exact ⟨h.1.symm, by simpa using hr, t, rfl, h.2.symm⟩

theorem preemptApply_tls (w : World) (s : Store) (tid : String) (a : Nat)
    (v : String) (p : Int) (t : TLS) :
    (preemptApply w s tid a v p t).1.tls =
      dictUpdate w.tls tid (fun t2 => { t2 with
        state := String.mk (overrideState t.controlledLinks a t.state.length) }) := rfl

theorem preemptApply_cpt (w : World) (s : Store) (tid : String) (a : Nat)
    (v : String) (p : Int) (t : TLS) :
    (preemptApply w s tid a v p t).2.currently_preempted_tls =
      dictSet s.currently_preempted_tls tid ⟨v, p, a⟩ := rfl

theorem preemptApply_mem (w : World) (s : Store) (tid : String) (a : Nat)
    (v : String) (p : Int) (t : TLS) :
    (preemptApply w s tid a v p t).2.preemption_memory =
      if (dictGet s.preemption_memory tid).isSome then s.preemption_memory
      else dictSet s.preemption_memory tid (capture t w.time) := rfl

theorem preempt_false_eq (w : World) (s : Store) (tid : String) (a : Nat)
    (v : String) (p : Int) (w1 : World) (s1 : Store)
    (h : preempt_traffic_light w s tid a v p = .ok (false, w1, s1)) :
    w1 = w ∧ s1 = s := by
  rcases preempt_ok_cases w s tid a v p false w1 s1 h with hc | hc
  · exact ⟨hc.2.1, hc.2.2.1⟩
  · exact absurd hc.1 (by simp)

theorem preempt_vehicles_eq (w : World) (s : Store) (tid : String) (a : Nat)
    (v : String) (p : Int) (b : Bool) (w1 : World) (s1 : Store)
    (h : preempt_traffic_light w s tid a v p = .ok (b, w1, s1)) :
    w1.vehicles = w.vehicles := by
  rcases preempt_ok_cases w s tid a v p b w1 s1 h with hc | hc
  · rw [hc.2.1]
  · obtain ⟨_, _, t, _, hpair⟩ := hc
    have hw : w1 = (preemptApply w s tid a v p t).1 := by
      rw [← hpair]
    rw [hw]
    rfl

theorem preempt_mem_stable (w : World) (s : Store) (tid : String) (a : Nat)
    (v : String) (p : Int) (b : Bool) (w1 : World) (s1 : Store) (j : String)
    (m : Snapshot) (hm : dictGet s.preemption_memory j = some m)
    (h : preempt_traffic_light w s tid a v p = .ok (b, w1, s1)) :
    dictGet s1.preemption_memory j = some m := by
  rcases preempt_ok_cases w s tid a v p b w1 s1 h with hc | hc
  · rw [hc.2.2.1]; exact hm
  · obtain ⟨_, _, t, _, hpair⟩ := hc
    have hs : s1 = (preemptApply w s tid a v p t).2 := by rw [← hpair]
    rw [hs, preemptApply_mem]
    by_cases htid : j = tid
    · subst htid
      simp [hm]
    · by_cases hsome : (dictGet s.preemption_memory tid).isSome
      · rw [if_pos hsome]
        exact hm
      · rw [if_neg hsome, dictGet_set_ne _ _ _ _ htid]
        exact hm

theorem preempt_tls_isSome (w : World) (s : Store) (tid : String) (a : Nat)
    (v : String) (p : Int) (b : Bool) (w1 : World) (s1 : Store) (j : String)
    (hj : (dictGet w.tls j).isSome)
    (h : preempt_traffic_light w s tid a v p = .ok (b, w1, s1)) :
    (dictGet w1.tls j).isSome := by
  rcases preempt_ok_cases w s tid a v p b w1 s1 h with hc | hc
  · rw [hc.2.1]; exact hj
  · obtain ⟨_, _, t, _, hpair⟩ := hc
    have hw : w1 = (preemptApply w s tid a v p t).1 := by rw [← hpair]
    rw [hw]
    show (dictGet (preemptApply w s tid a v p t).1.tls j).isSome
    rw [preemptApply_tls, isSome_dictGet_update]
    exact hj

/-! ### Shape lemmas for `chainPreempt` -/

theorem chainPreempt_mem_stable (L : List Call) (w : World) (s : Store)
    (j : String) (m : Snapshot)
    (hm : dictGet s.preemption_memory j = some m) :
    dictGet (chainPreempt L w s).2.preemption_memory j = some m := by
  induction L generalizing w s with
  | nil => exact hm
  | cons c rest ih =>
    show dictGet (chainPreempt (c :: rest) w s).2.preemption_memory j = some m
    unfold chainPreempt
    cases hp : preempt_traffic_light w s c.tls_id c.approach c.vehicle_id c.priority with
    | error e => exact ih w s hm
    | ok r =>
      exact ih r.2.1 r.2.2
        (preempt_mem_stable w s c.tls_id c.approach c.vehicle_id c.priority
          r.1 r.2.1 r.2.2 j m hm (by rw [hp]))

theorem chainPreempt_tls_isSome (L : List Call) (w : World) (s : Store)
    (j : String) (hj : (dictGet w.tls j).isSome) :
    (dictGet (chainPreempt L w s).1.tls j).isSome := by
  induction L generalizing w s with
  | nil => exact hj
  | cons c rest ih =>
    unfold chainPreempt
    cases hp : preempt_traffic_light w s c.tls_id c.approach c.vehicle_id c.priority with
    | error e => exact ih w s hj
    | ok r =>
      exact ih r.2.1 r.2.2
        (preempt_tls_isSome w s c.tls_id c.approach c.vehicle_id c.priority
          r.1 r.2.1 r.2.2 j hj (by rw [hp]))

/-! ### Shape lemmas for `restore_traffic_light` -/

theorem restore_cpt_self (w : World) (s : Store) (j : String) :
    dictGet (restore_traffic_light w s j).2.currently_preempted_tls j = none := by
  unfold restore_traffic_light
  cases dictGet s.preemption_memory j <;> exact dictGet_del_self _ _

theorem restore_mem_self (w : World) (s : Store) (j : String) :
    dictGet (restore_traffic_light w s j).2.preemption_memory j = none := by
  unfold restore_traffic_light
  cases hg : dictGet s.preemption_memory j with
  | none => exact hg
  | some m => exact dictGet_del_self _ _

theorem restore_tls_fires (w : World) (s : Store) (j : String) (m : Snapshot)
    (t : TLS) (hm : dictGet s.preemption_memory j = some m)
    (ht : dictGet w.tls j = some t) :
    dictGet (restore_traffic_light w s j).1.tls j = some (restoreTLSFields m t) := by
  unfold restore_traffic_light
  rw [hm]
  show dictGet (dictUpdate w.tls j (restoreTLSFields m)) j = _
  rw [dictGet_update_self, ht]
  rfl

theorem restore_frame_cpt (w : World) (s : Store) (k j : String) (h : j ≠ k) :
    dictGet (restore_traffic_light w s k).2.currently_preempted_tls j =
      dictGet s.currently_preempted_tls j := by
  unfold restore_traffic_light
  cases dictGet s.preemption_memory k <;> exact dictGet_del_ne _ _ _ h

theorem restore_frame_mem (w : World) (s : Store) (k j : String) (h : j ≠ k) :
    dictGet (restore_traffic_light w s k).2.preemption_memory j =
      dictGet s.preemption_memory j := by
  unfold restore_traffic_light
  cases dictGet s.preemption_memory k with
  | none => rfl
  | some m => exact dictGet_del_ne _ _ _ h

theorem restore_frame_tls (w : World) (s : Store) (k j : String) (h : j ≠ k) :
    dictGet (restore_traffic_light w s k).1.tls j = dictGet w.tls j := by
  unfold restore_traffic_light
  cases dictGet s.preemption_memory k with
  | none => rfl
  | some m => exact dictGet_update_ne _ _ _ _ h

theorem restore_vehicles_eq (w : World) (s : Store) (k : String) :
    (restore_traffic_light w s k).1.vehicles = w.vehicles := by
  unfold restore_traffic_light
  cases dictGet s.preemption_memory k <;> rfl

/-! ### The release pass as a fold of restores -/

theorem check_eq_restoreAll (w : World) (s : Store) :
    check_preempted_junctions w s =
      restoreAll ((s.currently_preempted_tls.map Prod.fst).filter
        (fun id => !(is_emergency_vehicle_in_junction w s id))) w s := rfl

theorem restoreAll_cons (a : String) (L : List String) (w : World) (s : Store) :
    restoreAll (a :: L) w s =
      restoreAll L (restore_traffic_light w s a).1 (restore_traffic_light w s a).2 := rfl

theorem restoreAll_frame (L : List String) (w : World) (s : Store) (j : String)
    (hj : j ∉ L) :
    dictGet (restoreAll L w s).2.currently_preempted_tls j =
        dictGet s.currently_preempted_tls j ∧
      dictGet (restoreAll L w s).2.preemption_memory j =
        dictGet s.preemption_memory j ∧
      dictGet (restoreAll L w s).1.tls j = dictGet w.tls j := by
  induction L generalizing w s with
  | nil => exact ⟨rfl, rfl, rfl⟩
  | cons a rest ih =>
    have hja : j ≠ a := fun h => hj (h ▸ List.mem_cons_self a rest)
    have hjrest : j ∉ rest := fun h => hj (List.mem_cons_of_mem a h)
    rw [restoreAll_cons]
    obtain ⟨h1, h2, h3⟩ :=
      ih (restore_traffic_light w s a).1 (restore_traffic_light w s a).2 hjrest
    exact ⟨h1.trans (restore_frame_cpt w s a j hja),
           h2.trans (restore_frame_mem w s a j hja),
           h3.trans (restore_frame_tls w s a j hja)⟩

theorem restoreAll_fires (L : List String) (w : World) (s : Store) (j : String)
    (m : Snapshot) (t : TLS) (hj : j ∈ L) (hnd : L.Nodup)
    (hm : dictGet s.preemption_memory j = some m)
    (ht : dictGet w.tls j = some t) :
    dictGet (restoreAll L w s).2.currently_preempted_tls j = none ∧
      dictGet (restoreAll L w s).2.preemption_memory j = none ∧
      dictGet (restoreAll L w s).1.tls j = some (restoreTLSFields m t) := by
  induction L generalizing w s with
  | nil => simp at hj
  | cons a rest ih =>
    rw [restoreAll_cons]
    by_cases hja : j = a
    · subst hja
      have hjrest : j ∉ rest := (List.nodup_cons.mp hnd).1
      obtain ⟨h1, h2, h3⟩ :=
        restoreAll_frame rest (restore_traffic_light w s j).1
          (restore_traffic_light w s j).2 j hjrest
      exact ⟨h1.trans (restore_cpt_self w s j),
             h2.trans (restore_mem_self w s j),
             h3.trans (restore_tls_fires w s j m t hm ht)⟩
    · have hjrest : j ∈ rest := by
        rcases List.mem_cons.mp hj with h | h
        · exact absurd h hja
        · exact h
      exact ih (restore_traffic_light w s a).1 (restore_traffic_light w s a).2
        hjrest (List.nodup_cons.mp hnd).2
        ((restore_frame_mem w s a j hja).trans hm)
        ((restore_frame_tls w s a j hja).trans ht)

/-! ### The release trigger -/

theorem is_in_false_iff (w : World) (s : Store) (j : String)
    (rec : OverrideRecord) (t : TLS)
    (hrec : dictGet s.currently_preempted_tls j = some rec)
    (ht : dictGet w.tls j = some t) :
    is_emergency_vehicle_in_junction w s j = false ↔
      (dictGet w.vehicles rec.vehicle_id = none ∨
        ∃ veh, dictGet w.vehicles rec.vehicle_id = some veh ∧
          DETECTION_RADIUS_SQ < dist2 veh.pos t.pos) := by
  unfold is_emergency_vehicle_in_junction
  simp only [hrec]
  cases hveh : dictGet w.vehicles rec.vehicle_id with
  | none => simp [hveh]
  | some veh =>
    simp only [hveh, ht]
    simp [decide_eq_false_iff_not, not_le]

/-! ### Preservation of the store invariant -/

theorem storeInv_preempt (w : World) (s : Store) (tid : String) (a : Nat)
    (v : String) (p : Int) (b : Bool) (w1 : World) (s1 : Store)
    (h : preempt_traffic_light w s tid a v p = .ok (b, w1, s1))
    (hi : StoreInv s) : StoreInv s1 := by
  rcases preempt_ok_cases w s tid a v p b w1 s1 h with hc | hc
  · rw [hc.2.2.1]; exact hi
  · obtain ⟨_, _, t, _, hpair⟩ := hc
    have hs : s1 = (preemptApply w s tid a v p t).2 := by rw [← hpair]
    subst hs
    obtain ⟨hn1, hn2, hiff⟩ := hi
    refine ⟨?_, ?_, ?_⟩
    · rw [preemptApply_cpt]
      exact nodup_keys_dictSet _ _ _ hn1
    · rw [preemptApply_mem]
      by_cases hsome : (dictGet s.preemption_memory tid).isSome
      · rw [if_pos hsome]; exact hn2
      · rw [if_neg hsome]; exact nodup_keys_dictSet _ _ _ hn2
    · intro k
      rw [preemptApply_cpt, preemptApply_mem]
      by_cases hk : k = tid
      · subst hk
        rw [dictGet_set_self]
        by_cases hsome : (dictGet s.preemption_memory k).isSome
        · rw [if_pos hsome]
          simp [hsome]
        · rw [if_neg hsome, dictGet_set_self]
          simp
      · rw [dictGet_set_ne _ _ _ _ hk]
        by_cases hsome : (dictGet s.preemption_memory tid).isSome
        · rw [if_pos hsome]
          exact hiff k
        · rw [if_neg hsome, dictGet_set_ne _ _ _ _ hk]
          exact hiff k

theorem storeInv_restore (w : World) (s : Store) (k : String)
    (hi : StoreInv s) : StoreInv (restore_traffic_light w s k).2 := by
  obtain ⟨hn1, hn2, hiff⟩ := hi
  refine ⟨?_, ?_, ?_⟩
  · unfold restore_traffic_light
    cases dictGet s.preemption_memory k <;> exact nodup_keys_dictDel _ _ hn1
  · unfold restore_traffic_light
    cases dictGet s.preemption_memory k with
    | none => exact hn2
    | some m => exact nodup_keys_dictDel _ _ hn2
  · intro j
    by_cases hj : j = k
    · subst hj
      rw [restore_cpt_self, restore_mem_self]
      exact Iff.rfl
    · rw [restore_frame_cpt w s k j hj, restore_frame_mem w s k j hj]
      exact hiff j

theorem storeInv_restoreAll (L : List String) (w : World) (s : Store)
    (hi : StoreInv s) : StoreInv (restoreAll L w s).2 := by
  induction L generalizing w s with
  | nil => exact hi
  | cons a rest ih =>
    rw [restoreAll_cons]
    exact ih _ _ (storeInv_restore w s a hi)

theorem storeInv_check (w : World) (s : Store) (hi : StoreInv s) :
    StoreInv (check_preempted_junctions w s).2 := by
  rw [check_eq_restoreAll]
  exact storeInv_restoreAll _ w s hi

theorem storeInv_step (p q : World × Store) (h : SysStep p q)
    (hi : StoreInv p.2) : StoreInv q.2 := by
  cases h with
  | preempt w s tid a v pr b w1 s1 heq =>
    exact storeInv_preempt w s tid a v pr b w1 s1 heq hi
  | release w s => exact storeInv_check w s hi
  | env w w1 s => exact hi

/-! ### Pointwise characterisation of the override signal pattern -/

theorem getq_set_self {α : Type} (l : List α) (i : Nat) (x : α)
    (h : i < l.length) : (l.set i x)[i]? = some x := by
  induction l generalizing i with
  | nil => simp at h
  | cons y ys ih =>
    cases i with
    | zero => simp
    | succ n =>
      show (y :: ys.set n x)[n + 1]? = some x
      simpa using ih n (by simpa using h)

theorem getq_set_ne {α : Type} (l : List α) (i j : Nat) (x : α)
    (h : i ≠ j) : (l.set i x)[j]? = l[j]? := by
  induction l generalizing i j with
  | nil => simp
  | cons y ys ih =>
    cases i with
    | zero =>
      cases j with
      | zero => exact absurd rfl h
      | succ n => rfl
    | succ m =>
      cases j with
      | zero => simp
      | succ n =>
        show (y :: ys.set m x)[n + 1]? = _
        simpa using ih m n (fun hh => h (by rw [hh]))

theorem getq_replicate {α : Type} (n j : Nat) (c : α) :
    (List.replicate n c)[j]? = if j < n then some c else none := by
  induction n generalizing j with
  | zero => simp
  | succ m ih =>
    cases j with
    | zero => simp
    | succ k =>
      show (c :: List.replicate m c)[k + 1]? = _
      simpa using ih k

theorem length_setGreensGroup (a i : Nat) (links : List Link) (st : List Char) :
    (setGreensGroup a i links st).length = st.length := by
  induction links generalizing st with
  | nil => rfl
  | cons l ls ih =>
    show (setGreensGroup a i ls
      (if (i == a) || linkCompatible l then st.set i 'g' else st)).length = st.length
    by_cases hc : ((i == a) || linkCompatible l) = true
    · rw [if_pos hc, ih]
      exact List.length_set st i 'g'
    · rw [if_neg hc, ih]

theorem setGreensGroup_getq (a i : Nat) (links : List Link) (st : List Char)
    (j : Nat) (hj : j < st.length) :
    (setGreensGroup a i links st)[j]? =
      if i = j ∧ groupTrigger a i links = true then some 'g' else st[j]? := by
  induction links generalizing st with
  | nil => simp [setGreensGroup, groupTrigger]
  | cons l ls ih =>
    show (setGreensGroup a i ls
      (if (i == a) || linkCompatible l then st.set i 'g' else st))[j]? = _
    have htrig : groupTrigger a i (l :: ls) =
        (((i == a) || linkCompatible l) || groupTrigger a i ls) := by
      simp [groupTrigger, List.any_cons]
    by_cases hc : ((i == a) || linkCompatible l) = true
    · rw [if_pos hc]
      rw [ih (st.set i 'g') (by rw [List.length_set]; exact hj)]
      by_cases hij : i = j
      · subst hij
        rw [getq_set_self st i 'g' hj]
        have : groupTrigger a i (l :: ls) = true := by rw [htrig, hc]; simp
        simp [this]
      · rw [getq_set_ne st i j 'g' hij]
        simp [hij]
    · rw [if_neg hc]
      rw [ih st hj]
      have hcf : ((i == a) || linkCompatible l) = false := by
        simpa using hc
      rw [htrig, hcf, Bool.false_or]

theorem length_setGreensFrom (a : Nat) (groups : List (List Link)) (i0 : Nat)
    (st : List Char) : (setGreensFrom a groups i0 st).length = st.length := by
  induction groups generalizing i0 st with
  | nil => rfl
  | cons links rest ih =>
    show (setGreensFrom a rest (i0 + 1) (setGreensGroup a i0 links st)).length = _
    rw [ih (i0 + 1) _, length_setGreensGroup]

theorem setGreensFrom_getq (a : Nat) (groups : List (List Link)) (i0 : Nat)
    (st : List Char) (j : Nat) (hj : j < st.length) :
    (setGreensFrom a groups i0 st)[j]? =
      if triggersAt a groups i0 j = true then some 'g' else st[j]? := by
  induction groups generalizing i0 st with
  | nil => simp [setGreensFrom, triggersAt]
  | cons links rest ih =>
    show (setGreensFrom a rest (i0 + 1) (setGreensGroup a i0 links st))[j]? = _
    rw [ih (i0 + 1) (setGreensGroup a i0 links st)
      (by rw [length_setGreensGroup]; exact hj)]
    rw [setGreensGroup_getq a i0 links st j hj]
    show _ = if triggersAt a (links :: rest) i0 j = true then some 'g' else st[j]?
    have hta : triggersAt a (links :: rest) i0 j =
        ((i0 == j && groupTrigger a i0 links) || triggersAt a rest (i0 + 1) j) := rfl
    rw [hta]
    by_cases h2 : triggersAt a rest (i0 + 1) j = true
    · simp [h2]
    · have h2f : triggersAt a rest (i0 + 1) j = false := by simpa using h2
      rw [h2f]
      by_cases h1 : i0 = j ∧ groupTrigger a i0 links = true
      · simp [h1.1, h1.2]
      · have : (i0 == j && groupTrigger a i0 links) = false := by
          rcases Decidable.not_and_iff_or_not.mp h1 with h | h
          · simp [h]
          · simp [h]
        simp [h1, this]

theorem triggersAt_iff (a : Nat) (groups : List (List Link)) (i0 j : Nat) :
    triggersAt a groups i0 j = true ↔
      ∃ k g, groups[k]? = some g ∧ i0 + k = j ∧ groupTrigger a j g = true := by
  induction groups generalizing i0 with
  | nil => simp [triggersAt]
  | cons links rest ih =>
    show ((i0 == j && groupTrigger a i0 links) ||
      triggersAt a rest (i0 + 1) j) = true ↔ _
    rw [Bool.or_eq_true, Bool.and_eq_true, beq_iff_eq, ih (i0 + 1)]
    constructor
    · rintro (⟨hij, htr⟩ | ⟨k, g, hget, hk, htr⟩)
      · exact ⟨0, links, by simp, by omega, hij ▸ htr⟩
      · exact ⟨k + 1, g, by simpa using hget, by omega, htr⟩
    · rintro ⟨k, g, hget, hk, htr⟩
      cases k with
      | zero =>
        left
        have hg : links = g := by simpa using hget
        subst hg
        have hij : i0 = j := by omega
        exact ⟨hij, by rw [hij]; exact htr⟩
      | succ n =>
        right
        exact ⟨n, g, by simpa using hget, by omega, htr⟩

theorem overrideState_getq (groups : List (List Link)) (a num_links j : Nat)
    (hj : j < num_links) :
    (overrideState groups a num_links)[j]? =
      if triggersAt a groups 0 j = true then some 'g' else some 'r' := by
  unfold overrideState
  rw [setGreensFrom_getq a groups 0 (List.replicate num_links 'r') j
    (by simpa using hj)]
  rw [getq_replicate, if_pos hj]

theorem length_overrideState (groups : List (List Link)) (a num_links : Nat) :
    (overrideState groups a num_links).length = num_links := by
  unfold overrideState
  rw [length_setGreensFrom]
  exact List.length_replicate num_links 'r'

/-! ### Characterisation of the approach-lane scan -/

theorem scanGroups_eq_some_iff (cur nxt : String) (groups : List (List Link))
    (i0 i : Nat) :
    scanGroups cur nxt groups i0 = some i ↔
      (i0 ≤ i ∧
        (∃ g, groups[i - i0]? = some g ∧ g.any (linkMatches cur nxt) = true) ∧
        ∀ k, i0 ≤ k → k < i → ∀ g2, groups[k - i0]? = some g2 →
          g2.any (linkMatches cur nxt) = false) := by
  induction groups generalizing i0 with
  | nil => simp [scanGroups]
  | cons g gs ih =>
    show (if g.any (linkMatches cur nxt) then some i0
      else scanGroups cur nxt gs (i0 + 1)) = some i ↔ _
    by_cases hany : g.any (linkMatches cur nxt) = true
    · rw [if_pos hany]
      constructor
      · intro h
        have hi : i = i0 := by
          have := Option.some.inj h
          omega
        subst hi
        exact ⟨le_refl i, ⟨g, by simp, hany⟩, fun k hk1 hk2 => by omega⟩
      · rintro ⟨hle, _, hnone⟩
        by_cases hii : i = i0
        · rw [hii]
        · have hfirst := hnone i0 (le_refl i0) (by omega) g (by simp)
          rw [hany] at hfirst
          simp at hfirst
    · rw [if_neg hany, ih (i0 + 1)]
      have hanyf : g.any (linkMatches cur nxt) = false := by simpa using hany
      constructor
      · rintro ⟨hle, ⟨g2, hget, hg2⟩, hnone⟩
        refine ⟨by omega, ⟨g2, ?_, hg2⟩, ?_⟩
        · have : i - i0 = (i - (i0 + 1)) + 1 := by omega
          rw [this]
          simpa using hget
        · intro k hk1 hk2 g3 hget3
          by_cases hki : k = i0
          · subst hki
            have hgg : g = g3 := by simpa using hget3
            rw [← hgg]
            exact hanyf
          · have hk1s : i0 + 1 ≤ k := by omega
            refine hnone k hk1s hk2 g3 ?_
            have : k - i0 = (k - (i0 + 1)) + 1 := by omega
            rw [this] at hget3
            simpa using hget3
      · rintro ⟨hle, ⟨g2, hget, hg2⟩, hnone⟩
        have hii : i ≠ i0 := by
          intro hii
          subst hii
          have hgg : g = g2 := by
            have h0 : i - i = 0 := by omega
            rw [h0] at hget
            simpa using hget
          rw [← hgg] at hg2
          rw [hanyf] at hg2
          simp at hg2
        refine ⟨by omega, ⟨g2, ?_, hg2⟩, ?_⟩
        · have : i - (i0 + 1) + 1 = i - i0 := by omega
          rw [← this] at hget
          simpa using hget
        · intro k hk1 hk2 g3 hget3
          refine hnone k (by omega) hk2 g3 ?_
          have : k - (i0 + 1) + 1 = k - i0 := by omega
          rw [← this]
          simpa using hget3

/-! ### Further small helpers -/

theorem getq_lt_length {α : Type} (l : List α) (i : Nat) (x : α)
    (h : l[i]? = some x) : i < l.length := by
  induction l generalizing i with
  | nil => simp at h
  | cons y ys ih =>
    cases i with
    | zero => simp
    | succ n =>
      have : ys[n]? = some x := by simpa using h
      have := ih n this
      simpa using Nat.succ_lt_succ this

theorem getD_eq_of_getq {α : Type} (l : List α) (i : Nat) (d x : α)
    (h : l[i]? = some x) : l.getD i d = x := by
  induction l generalizing i with
  | nil => simp at h
  | cons y ys ih =>
    cases i with
    | zero =>
      have : y = x := by simpa using h
      simpa [List.getD] using this
    | succ n =>
      have hn : ys[n]? = some x := by simpa using h
      simpa [List.getD] using ih n hn

theorem preemptCandidates_vehicles (v : String) (p : Int)
    (cands : List (String × Int × Nat)) (w : World) (s : Store) :
    (preemptCandidates v p cands w s).1.vehicles = w.vehicles := by
  induction cands generalizing w s with
  | nil => rfl
  | cons c rest ih =>
    show (match preempt_traffic_light w s c.1 c.2.2 v p with
      | .error _ => (w, s)
      | .ok r => preemptCandidates v p rest r.2.1 r.2.2).1.vehicles = w.vehicles
    cases hp : preempt_traffic_light w s c.1 c.2.2 v p with
    | error e => rfl
    | ok r =>
      rw [ih r.2.1 r.2.2]
      exact preempt_vehicles_eq w s c.1 c.2.2 v p r.1 r.2.1 r.2.2 (by rw [hp])

theorem processOne_vehicles (w : World) (s : Store) (v : String) (p : Int) :
    (processOne w s v p).1.vehicles = w.vehicles := by
  unfold processOne
  cases find_nearest_tls w v with
  | none => rfl
  | some cands => exact preemptCandidates_vehicles v p cands w s

/-! ### Claim theorems -/

/-- C7: Whenever `tryOverride` is rejected (returns false because the junction
is already overridden with equal or more urgent priority), nothing is
mutated: the junction's live signal state, its OverrideRecord, its Snapshot,
and the state of every other junction are all unchanged — the returned world
and store are exactly the inputs. -/
theorem C7_reject_no_mutation (w : World) (s : Store) (tid : String) (a : Nat)
    (v : String) (p : Int) (w1 : World) (s1 : Store)
    (h : preempt_traffic_light w s tid a v p = .ok (false, w1, s1)) :
    w1 = w ∧ s1 = s :=
  preempt_false_eq w s tid a v p w1 s1 h

/-- Witness for C7: a concrete rejected override (priority 5 against a
priority-2 holder) that returns false with world and store untouched. -/
theorem C7_witness :
    preempt_traffic_light wFix sOverr "J" 0 "x" 5 = .ok (false, wFix, sOverr) ∧
      (wFix = wFix ∧ sOverr = sOverr) :=
  ⟨rfl, C7_reject_no_mutation wFix sOverr "J" 0 "x" 5 wFix sOverr rfl⟩

/-- C3: For a junction that already holds an OverrideRecord, `tryOverride`
with a new requester returns true (and displaces the record) if and only if
the new requester's priority rank is strictly smaller than the existing
record's; an equal or greater rank is rejected with false. -/
theorem C3_priority_displacement (w : World) (s : Store) (j : String) (a : Nat)
    (v : String) (p : Int) (rec : OverrideRecord) (t : TLS)
    (hrec : dictGet s.currently_preempted_tls j = some rec)
    (ht : dictGet w.tls j = some t) :
    (p < rec.priority →
      ∃ w1 s1, preempt_traffic_light w s j a v p = .ok (true, w1, s1) ∧
        dictGet s1.currently_preempted_tls j = some ⟨v, p, a⟩) ∧
    (rec.priority ≤ p →
      preempt_traffic_light w s j a v p = .ok (false, w, s)) := by
  have hrej : preemptRejected s j p = decide (rec.priority ≤ p) := by
    unfold preemptRejected
    rw [hrec]
  constructor
  · intro hlt
    have hrejf : preemptRejected s j p = false := by
      rw [hrej]
      simp only [decide_eq_false_iff_not, not_le]
      exact hlt
    refine ⟨(preemptApply w s j a v p t).1, (preemptApply w s j a v p t).2, ?_, ?_⟩
    · unfold preempt_traffic_light
      rw [hrejf]
      simp only [Bool.false_eq_true, if_false]
      rw [ht]
    · rw [preemptApply_cpt, dictGet_set_self]
  · intro hge
    have hrejt : preemptRejected s j p = true := by
      rw [hrej]
      simpa using hge
    unfold preempt_traffic_light
    rw [hrejt]
    simp only [if_true]

/-- Witness for C3: against a priority-2 holder, a priority-1 requester
displaces the record and a priority-2 requester is rejected unchanged. -/
theorem C3_witness :
    (∃ w1 s1, preempt_traffic_light wFix sOverr "J" 0 "amb" 1 = .ok (true, w1, s1) ∧
      dictGet s1.currently_preempted_tls "J" = some ⟨"amb", 1, 0⟩) ∧
    preempt_traffic_light wFix sOverr "J" 0 "amb" 2 = .ok (false, wFix, sOverr) := by
  have h1 := C3_priority_displacement wFix sOverr "J" 0 "amb" 1 ⟨"v1", 2, 1⟩ tFix rfl rfl
  have h2 := C3_priority_displacement wFix sOverr "J" 0 "amb" 2 ⟨"v1", 2, 1⟩ tFix rfl rfl
  exact ⟨h1.1 (by decide), h2.2 (by decide)⟩

/-- C9: If a collaborator call fails transiently while processing one
prioritized requester during a tick (modelled: the requester's id is no
longer live when the per-vehicle body queries it, so `find_nearest_tls`
raises), the loop catches the error, skips only that requester, and
continues processing the remaining requesters of the same tick; the tick is
not aborted and the resulting state is exactly that of the tick without the
vanished requester. -/
theorem C9_transient_failure_skips_requester (w : World) (s : Store)
    (v : String) (p : Int) (l1 l2 : List (String × Int))
    (hv : dictGet w.vehicles v = none) :
    processEmergencyList (l1 ++ (v, p) :: l2) w s =
      processEmergencyList (l1 ++ l2) w s := by
  induction l1 generalizing w s with
  | nil =>
    have hpo : processOne w s v p = (w, s) := by
      unfold processOne find_nearest_tls
      rw [hv]
    show processEmergencyList ((v, p) :: l2) w s = processEmergencyList l2 w s
    rw [show processEmergencyList ((v, p) :: l2) w s =
      processEmergencyList l2 (processOne w s v p).1 (processOne w s v p).2 from rfl]
    rw [hpo]
  | cons e rest ih =>
    show processEmergencyList (e :: (rest ++ (v, p) :: l2)) w s =
      processEmergencyList (e :: (rest ++ l2)) w s
    rw [show processEmergencyList (e :: (rest ++ (v, p) :: l2)) w s =
      processEmergencyList (rest ++ (v, p) :: l2)
        (processOne w s e.1 e.2).1 (processOne w s e.1 e.2).2 from rfl]
    rw [show processEmergencyList (e :: (rest ++ l2)) w s =
      processEmergencyList (rest ++ l2)
        (processOne w s e.1 e.2).1 (processOne w s e.1 e.2).2 from rfl]
    apply ih
    rw [processOne_vehicles]
    exact hv

/-- Witness for C9: with one live ambulance and one vanished requester id,
the tick over `[amb, ghost]` equals the tick over `[amb]` alone. -/
theorem C9_witness :
    processEmergencyList ([("amb", 1)] ++ ("ghost", 2) :: []) wFix initStore =
      processEmergencyList ([("amb", 1)] ++ []) wFix initStore :=
  C9_transient_failure_skips_requester wFix initStore "ghost" 2 [("amb", 1)] [] rfl

/-- C1: The Snapshot is captured only on the first override of a junction
(when none exists) and is never overwritten by later successful overrides —
in particular not by strictly more urgent displacements — so after any chain
of further override calls, the restoration performed at release reapplies the
program id, phase index and remaining duration captured before the first
override. -/
theorem C1_snapshot_first_capture_stable
    (w : World) (s : Store) (j : String) (a : Nat) (v : String) (p : Int)
    (t : TLS) (w1 : World) (s1 : Store)
    (hmem : dictGet s.preemption_memory j = none)
    (ht : dictGet w.tls j = some t)
    (hsucc : preempt_traffic_light w s j a v p = .ok (true, w1, s1)) :
    dictGet s1.preemption_memory j = some (capture t w.time) ∧
    ∀ L : List Call, ∀ w2 s2, chainPreempt L w1 s1 = (w2, s2) →
      dictGet s2.preemption_memory j = some (capture t w.time) ∧
      ∀ w3 s3, restore_traffic_light w2 s2 j = (w3, s3) →
        dictGet s3.preemption_memory j = none ∧
        dictGet s3.currently_preempted_tls j = none ∧
        ∃ t3, dictGet w3.tls j = some t3 ∧
          t3.program = t.program ∧ t3.phase = t.phase ∧
          t3.phaseDuration = t.nextSwitch - w.time := by
  rcases preempt_ok_cases w s j a v p true w1 s1 hsucc with hc | hc
  · exact absurd hc.1 (by simp)
  · obtain ⟨_, _, t0, ht0, hpair⟩ := hc
    have htt : t0 = t := by
      rw [ht0] at ht
      exact Option.some.inj ht
    subst htt
    have hs1 : s1 = (preemptApply w s j a v p t0).2 := by rw [← hpair]
    have hcap : dictGet s1.preemption_memory j = some (capture t0 w.time) := by
      rw [hs1, preemptApply_mem, hmem]
      simp only [Option.isSome_none, Bool.false_eq_true, if_false]
      exact dictGet_set_self _ _ _
    refine ⟨hcap, ?_⟩
    intro L w2 s2 hchain
    have hmem2 : dictGet s2.preemption_memory j = some (capture t0 w.time) := by
      have hh := chainPreempt_mem_stable L w1 s1 j (capture t0 w.time) hcap
      rw [hchain] at hh
      exact hh
    have htls1 : (dictGet w1.tls j).isSome :=
      preempt_tls_isSome w s j a v p true w1 s1 j (by rw [ht0]; rfl) hsucc
    have htls2 : (dictGet w2.tls j).isSome := by
      have hh := chainPreempt_tls_isSome L w1 s1 j htls1
      rw [hchain] at hh
      exact hh
    refine ⟨hmem2, ?_⟩
    intro w3 s3 hrest
    obtain ⟨t2, ht2⟩ := Option.isSome_iff_exists.mp htls2
    have hm3 := restore_mem_self w2 s2 j
    have hc3 := restore_cpt_self w2 s2 j
    have ht3 := restore_tls_fires w2 s2 j (capture t0 w.time) t2 hmem2 ht2
    rw [hrest] at hm3 hc3 ht3
    exact ⟨hm3, hc3, restoreTLSFields (capture t0 w.time) t2, ht3, rfl, rfl, rfl⟩

/-- Witness for C1: an override (priority 3) captures the snapshot of `tFix`
at time 5; a strictly more urgent displacement (priority 1) leaves it
untouched, and the final restoration reapplies program `prog0`, phase 2 and
the captured remaining duration 40. -/
theorem C1_witness :
    dictGet c1s2.preemption_memory "J" = some ⟨"prog0", 2, 30, 40⟩ ∧
    dictGet c1s3.preemption_memory "J" = none ∧
    dictGet c1s3.currently_preempted_tls "J" = none ∧
    ∃ t3, dictGet c1w3.tls "J" = some t3 ∧ t3.program = "prog0" ∧
      t3.phase = 2 ∧ t3.phaseDuration = 40 := by
  have h := C1_snapshot_first_capture_stable wFix initStore "J" 0 "amb" 3 tFix
    c1w1 c1s1 rfl rfl rfl
  have h2 := h.2 c1chain c1w2 c1s2 rfl
  have h3 := h2.2 c1w3 c1s3 rfl
  exact ⟨h2.1, h3.1, h3.2.1, h3.2.2⟩

/-- C2: For a junction holding an OverrideRecord (with its snapshot and a
live junction record), release fires iff the recorded requester is absent
from the live set or its planar distance to the junction exceeds the
detection radius; and when it fires, the same tick's release pass restores
the snapshot's program id and phase index, sets the phase duration to the
captured *remaining* duration, and deletes both the Snapshot and the
OverrideRecord, returning the junction to Free. -/
theorem C2_release_correctness (w : World) (s : Store) (j : String)
    (rec : OverrideRecord) (snap : Snapshot) (t : TLS)
    (hrec : dictGet s.currently_preempted_tls j = some rec)
    (hsnap : dictGet s.preemption_memory j = some snap)
    (ht : dictGet w.tls j = some t)
    (hnd : (s.currently_preempted_tls.map Prod.fst).Nodup) :
    (is_emergency_vehicle_in_junction w s j = false ↔
      (dictGet w.vehicles rec.vehicle_id = none ∨
        ∃ veh, dictGet w.vehicles rec.vehicle_id = some veh ∧
          DETECTION_RADIUS_SQ < dist2 veh.pos t.pos)) ∧
    (is_emergency_vehicle_in_junction w s j = false →
      ∀ w2 s2, check_preempted_junctions w s = (w2, s2) →
        dictGet s2.currently_preempted_tls j = none ∧
        dictGet s2.preemption_memory j = none ∧
        ∃ t2, dictGet w2.tls j = some t2 ∧ t2.program = snap.program ∧
          t2.phase = snap.phase ∧ t2.phaseDuration = snap.remaining_duration) := by
  refine ⟨is_in_false_iff w s j rec t hrec ht, ?_⟩
  intro hfire w2 s2 hcheck
  have hjmem : j ∈ (s.currently_preempted_tls.map Prod.fst).filter
      (fun id => !(is_emergency_vehicle_in_junction w s id)) := by
    apply List.mem_filter.mpr
    refine ⟨mem_keys_of_isSome _ _ (by rw [hrec]; rfl), ?_⟩
    rw [hfire]
    rfl
  have hra := restoreAll_fires _ w s j snap t hjmem (hnd.filter _) hsnap ht
  rw [check_eq_restoreAll] at hcheck
  rw [hcheck] at hra
  exact ⟨hra.1, hra.2.1, restoreTLSFields snap t, hra.2.2, rfl, rfl, rfl⟩

/-- Witness for C2: the recorded requester `gone` is absent, so release fires
and the single release pass restores program `pX`, phase 7 and remaining
duration 11 and empties both dictionaries for `"J"`. -/
theorem C2_witness :
    is_emergency_vehicle_in_junction wC2 sC2 "J" = false ∧
    dictGet c2s2.currently_preempted_tls "J" = none ∧
    dictGet c2s2.preemption_memory "J" = none ∧
    ∃ t2, dictGet c2w2.tls "J" = some t2 ∧ t2.program = "pX" ∧
      t2.phase = 7 ∧ t2.phaseDuration = 11 := by
  have h := C2_release_correctness wC2 sC2 "J" ⟨"gone", 1, 0⟩ ⟨"pX", 7, 30, 11⟩
    tFix rfl rfl rfl (by decide)
  have hfire : is_emergency_vehicle_in_junction wC2 sC2 "J" = false :=
    h.1.mpr (Or.inl rfl)
  have h2 := h.2 hfire c2w2 c2s2 rfl
  exact ⟨hfire, h2.1, h2.2.1, h2.2.2⟩

/-- C6: In every state reachable from the empty store by any sequence of
`tryOverride` calls, release passes and environment steps, each junction has
at most one OverrideRecord (the record keys are duplicate-free) and a
Snapshot exists for a junction iff an OverrideRecord exists for it. -/
theorem C6_store_invariant (w0 : World) (q : World × Store)
    (h : Relation.ReflTransGen SysStep (w0, initStore) q) :
    (q.2.currently_preempted_tls.map Prod.fst).Nodup ∧
    ∀ j : String, (dictGet q.2.currently_preempted_tls j).isSome ↔
      (dictGet q.2.preemption_memory j).isSome := by
  have hinv : StoreInv q.2 := by
    induction h with
    | refl => exact ⟨List.nodup_nil, List.nodup_nil, fun j => Iff.rfl⟩
    | tail hsteps hstep ih => exact storeInv_step _ _ hstep ih
  exact ⟨hinv.1, hinv.2.2⟩

/-- Witness for C6: after one reachable override step both the record and
the snapshot exist for `"J"` and the record keys are duplicate-free. -/
theorem C6_witness :
    (c6next.2.currently_preempted_tls.map Prod.fst).Nodup ∧
    ((dictGet c6next.2.currently_preempted_tls "J").isSome ↔
      (dictGet c6next.2.preemption_memory "J").isSome) := by
  have h := C6_store_invariant wFix c6next
    (Relation.ReflTransGen.single
      (SysStep.preempt wFix initStore "J" 0 "amb" 1 true c6next.1 c6next.2 rfl))
  exact ⟨h.1, h.2 "J"⟩

/-- C8: For a junction in the Free state (no OverrideRecord and no Snapshot),
the release check-and-restore step is a no-op — it issues no restore commands
and leaves world and store unchanged — and remains a no-op when invoked twice
in succession; likewise the whole release pass is the identity (twice) when
no junction is overridden. -/
theorem C8_release_noop_on_free (w : World) (s : Store) (j : String)
    (hrec : dictGet s.currently_preempted_tls j = none)
    (hmem : dictGet s.preemption_memory j = none) :
    releaseCheckJunction w s j = (w, s) ∧
    releaseCheckJunction (releaseCheckJunction w s j).1
      (releaseCheckJunction w s j).2 j = (w, s) ∧
    (s.currently_preempted_tls = [] →
      check_preempted_junctions w s = (w, s) ∧
      check_preempted_junctions (check_preempted_junctions w s).1
        (check_preempted_junctions w s).2 = (w, s)) := by
  have his : is_emergency_vehicle_in_junction w s j = false := by
    unfold is_emergency_vehicle_in_junction
    rw [hrec]
  have h1 : releaseCheckJunction w s j = (w, s) := by
    unfold releaseCheckJunction
    rw [his]
    simp only [Bool.false_eq_true, if_false]
    unfold restore_traffic_light
    rw [hmem, dictDel_of_get_none _ _ hrec]
  refine ⟨h1, ?_, ?_⟩
  · rw [h1]
    exact h1
  · intro hempty
    have hch : check_preempted_junctions w s = (w, s) := by
      rw [check_eq_restoreAll, hempty]
      rfl
    refine ⟨hch, ?_⟩
    rw [hch]
    exact hch

/-- Witness for C8: on the empty store, the per-junction release check and
the whole release pass leave everything unchanged. -/
theorem C8_witness :
    releaseCheckJunction wFix initStore "J" = (wFix, initStore) ∧
    check_preempted_junctions wFix initStore = (wFix, initStore) := by
  have h := C8_release_noop_on_free wFix initStore "J" rfl rfl
  exact ⟨h.1, (h.2.2 rfl).1⟩

/-- C4 counterexample: a requester on the final leg of its route, within the
detection radius, not on an internal segment, whose *current* segment equals
the source segment of the junction's first controlled link — yet the resolver
returns `none` (the claim says it would still resolve to that link's index):
line 45 of the source returns before any link is examined. -/
theorem C4_counterexample :
    vC4.routeIndex + 1 ≥ vC4.route.length ∧
    dist2 vC4.pos tC4.pos ≤ DETECTION_RADIUS_SQ ∧
    isInternalEdge vC4.edge = false ∧
    (tC4.controlledLinks.getD 0 []).any
      (fun l => laneEdge l.fromLane == vC4.edge) = true ∧
    get_approaching_lane vC4 tC4 = none :=
  ⟨by decide, by decide, by decide, by decide, by decide⟩

/-- C4 (amended): the resolver returns `none` whenever the requester's route
has no next segment (`route_index + 1 >= len(route)`), regardless of any
current-segment match; when a next segment exists, it resolves to `some i`
iff link group `i` is the first whose source segment matches the requester's
current or next segment. -/
theorem C4_amended_resolver (veh : Vehicle) (t : TLS) :
    (veh.routeIndex + 1 ≥ veh.route.length → get_approaching_lane veh t = none) ∧
    (veh.routeIndex + 1 < veh.route.length →
      ∀ i, get_approaching_lane veh t = some i ↔
        ((∃ g, t.controlledLinks[i]? = some g ∧
            g.any (linkMatches veh.edge (veh.route.getD (veh.routeIndex + 1) ""))
              = true) ∧
          ∀ k, k < i → ∀ g2, t.controlledLinks[k]? = some g2 →
            g2.any (linkMatches veh.edge (veh.route.getD (veh.routeIndex + 1) ""))
              = false)) := by
  constructor
  · intro h
    unfold get_approaching_lane
    rw [if_pos h]
  · intro h i
    unfold get_approaching_lane
    rw [if_neg (by omega)]
    rw [scanGroups_eq_some_iff]
    constructor
    · rintro ⟨_, ⟨g, hg, hga⟩, hnone⟩
      refine ⟨⟨g, by simpa using hg, hga⟩, ?_⟩
      intro k hk g2 hg2
      exact hnone k (Nat.zero_le k) hk g2 (by simpa using hg2)
    · rintro ⟨⟨g, hg, hga⟩, hnone⟩
      exact ⟨Nat.zero_le i, ⟨g, by simpa using hg, hga⟩,
        fun k _ hk g2 hg2 => hnone k hk g2 (by simpa using hg2)⟩

/-- Witness for the amended C4: the final-leg vehicle resolves to `none`, and
a vehicle with a next segment resolves via the first-match characterisation. -/
theorem C4_witness :
    get_approaching_lane vC4 tC4 = none ∧
    ((∃ g, tJ1.controlledLinks[0]? = some g ∧
        g.any (linkMatches vC10.edge (vC10.route.getD (vC10.routeIndex + 1) ""))
          = true) ∧
      ∀ k, k < 0 → ∀ g2, tJ1.controlledLinks[k]? = some g2 →
        g2.any (linkMatches vC10.edge (vC10.route.getD (vC10.routeIndex + 1) ""))
          = false) := by
  refine ⟨(C4_amended_resolver vC4 tC4).1 (by decide), ?_⟩
  exact ((C4_amended_resolver vC10 tJ1).2 (by decide) 0).mp (by decide)

/-- C5: Every successful override applies, as one full-string replacement of
the junction's signal state whose length equals the number of controlled
links, the pattern that is green exactly at the requested approach index and
at every link group containing a compatible-flagged link, and red everywhere
else. -/
theorem C5_override_pattern (w : World) (s : Store) (j : String) (a : Nat)
    (v : String) (p : Int) (t : TLS) (w1 : World) (s1 : Store)
    (ht : dictGet w.tls j = some t)
    (hwf : t.state.length = t.controlledLinks.length)
    (hne : t.controlledLinks.getD a [] ≠ [])
    (hsucc : preempt_traffic_light w s j a v p = .ok (true, w1, s1)) :
    ∃ t1, dictGet w1.tls j = some t1 ∧
      t1.state.length = t.controlledLinks.length ∧
      ∀ i g, t.controlledLinks[i]? = some g →
        t1.state.data[i]? =
          some (if i = a ∨ g.any linkCompatible = true then 'g' else 'r') := by
  rcases preempt_ok_cases w s j a v p true w1 s1 hsucc with hc | hc
  · exact absurd hc.1 (by simp)
  · obtain ⟨_, _, t0, ht0, hpair⟩ := hc
    have htt : t0 = t := by
      rw [ht0] at ht
      exact Option.some.inj ht
    subst htt
    have hw1 : w1 = (preemptApply w s j a v p t0).1 := by rw [← hpair]
    have hget : dictGet w1.tls j = some { t0 with
        state := String.mk (overrideState t0.controlledLinks a t0.state.length) } := by
      rw [hw1, preemptApply_tls, dictGet_update_self, ht0]
      rfl
    refine ⟨_, hget, ?_, ?_⟩
    · show (overrideState t0.controlledLinks a t0.state.length).length
        = t0.controlledLinks.length
      rw [length_overrideState]
      exact hwf
    · intro i g hg
      have hilt : i < t0.controlledLinks.length := getq_lt_length _ _ _ hg
      have hjlen : i < t0.state.length := by rw [hwf]; exact hilt
      show (overrideState t0.controlledLinks a t0.state.length)[i]? = _
      rw [overrideState_getq t0.controlledLinks a t0.state.length i hjlen]
      have htr : triggersAt a t0.controlledLinks 0 i = true ↔
          (i = a ∨ g.any linkCompatible = true) := by
        rw [triggersAt_iff]
        constructor
        · rintro ⟨k, g2, hg2, hk, htrg⟩
          have hk0 : k = i := by omega
          rw [hk0] at hg2
          have hgg : g2 = g := by
            rw [hg2] at hg
            exact Option.some.inj hg
          subst hgg
          by_cases hia : i = a
          · exact Or.inl hia
          · right
            unfold groupTrigger at htrg
            rw [List.any_eq_true] at htrg
            obtain ⟨l, hl, hpl⟩ := htrg
            rw [Bool.or_eq_true] at hpl
            rcases hpl with hpl | hpl
            · exact absurd (beq_iff_eq.mp hpl) hia
            · exact List.any_eq_true.mpr ⟨l, hl, hpl⟩
        · intro hcond
          refine ⟨i, g, hg, by omega, ?_⟩
          rcases hcond with hia | hany
          · have hgd : t0.controlledLinks.getD i [] = g :=
              getD_eq_of_getq _ _ [] g hg
            have hgne : g ≠ [] := by
              rw [← hgd, hia]
              exact hne
            cases g with
            | nil => exact absurd rfl hgne
            | cons l ls =>
              unfold groupTrigger
              exact List.any_eq_true.mpr ⟨l, by simp, by simp [hia]⟩
          · unfold groupTrigger
            rw [List.any_eq_true] at hany ⊢
            obtain ⟨l, hl, hcl⟩ := hany
            refine ⟨l, hl, ?_⟩
            rw [Bool.or_eq_true]
            exact Or.inr hcl
      by_cases hcond : i = a ∨ g.any linkCompatible = true
      · rw [if_pos (htr.mpr hcond), if_pos hcond]
      · rw [if_neg (fun hT => hcond (htr.mp hT)), if_neg hcond]

/-- Witness for C5: overriding `tFix` (three controlled links, the third
compatible-flagged) on approach 0 produces the pattern green–red–green of
length 3. -/
theorem C5_witness :
    ∃ t1, dictGet c5w1.tls "J" = some t1 ∧
      t1.state.length = 3 ∧
      t1.state.data[0]? = some 'g' ∧ t1.state.data[1]? = some 'r' ∧
      t1.state.data[2]? = some 'g' := by
  obtain ⟨t1, hget, hlen, hchar⟩ := C5_override_pattern wFix initStore "J" 0
    "amb" 1 tFix c5w1 c5s1 rfl rfl (by decide) rfl
  refine ⟨t1, hget, hlen, ?_, ?_, ?_⟩
  · have h := hchar 0 [⟨"e1_0", "e9_0", ""⟩] rfl
    rw [if_pos (by decide)] at h
    exact h
  · have h := hchar 1 [⟨"e2_0", "e9_1", ""⟩] rfl
    rw [if_neg (by decide)] at h
    exact h
  · have h := hchar 2 [⟨"e3_0", "e9_2", "j1_0"⟩] rfl
    rw [if_pos (by decide)] at h
    exact h

/-- C10: A single requester may hold overrides on several junctions at once:
in one tick the loop attempts an override for every candidate junction of a
requester, so a state is reachable in which the override records of two
distinct junctions carry the same requester id — mutual exclusion is per
junction only, never per requester. -/
theorem C10_requester_holds_multiple_junctions :
    "J1" ≠ "J2" ∧
    dictGet (process_emergency_vehicles wC10 initStore).2.currently_preempted_tls
      "J1" = some ⟨"amb", 1, 0⟩ ∧
    dictGet (process_emergency_vehicles wC10 initStore).2.currently_preempted_tls
      "J2" = some ⟨"amb", 1, 0⟩ :=
  ⟨by decide, by decide, by decide⟩

end EP
